import Mathlib

/-
Verification development for the cryptographic core of a BTC-to-EVM bridge:
a FROST threshold-signing engine (TSS_component/rustlib) and a Bitcoin SPV
verifier meant to run inside a zkVM (ZKP_component/program).

The embedding works at the byte level: hex strings that cross the Rust
host boundary are modelled as the byte lists they decode to (in Bitcoin
internal byte order, i.e. after the reversal performed by `from_str` on
txids, block hashes and merkle nodes).  Durable sled state is modelled as
an explicit association list passed in and out of each operation.  Calls
into external cryptographic libraries (FROST primitives, secp256k1 point
validation, EVM address checksum parsing) are abstracted as function
parameters; everything the repository itself computes (hashing, header
serialization, fee arithmetic, ABI layouts, control flow) is embedded
directly.
-/

deriving instance DecidableEq for Except

namespace Bridge

/-- Truncation to a 32-bit word, mirroring `u32` wrapping arithmetic. -/
def w32 (x : Nat) : Nat := x % 4294967296

/-- Right rotation of a 32-bit word by `n` bits. -/
def rotr (n x : Nat) : Nat := (x / 2 ^ n) + (x % 2 ^ n) * 2 ^ (32 - n)

/-- SHA-256 round constants (FIPS 180-4), used by the `sha2` crate that
`lib_struct::double_sha256` and the `bitcoin` crate hash types rely on. -/
def shaK : List Nat :=
  [1116352408, 1899447441, 3049323471, 3921009573, 961987163,
   1508970993, 2453635748, 2870763221, 3624381080, 310598401,
   607225278, 1426881987, 1925078388, 2162078206, 2614888103,
   3248222580, 3835390401, 4022224774, 264347078, 604807628,
   770255983, 1249150122, 1555081692, 1996064986, 2554220882,
   2821834349, 2952996808, 3210313671, 3336571891, 3584528711,
   113926993, 338241895, 666307205, 773529912, 1294757372,
   1396182291, 1695183700, 1986661051, 2177026350, 2456956037,
   2730485921, 2820302411, 3259730800, 3345764771, 3516065817,
   3600352804, 4094571909, 275423344, 430227734, 506948616,
   659060556, 883997877, 958139571, 1322822218, 1537002063,
   1747873779, 1955562222, 2024104815, 2227730452, 2361852424,
   2428436474, 2756734187, 3204031479, 3329325298]

/-- SHA-256 initial hash state (FIPS 180-4). -/
def shaH0 : List Nat :=
  [1779033703, 3144134277, 1013904242, 2773480762, 1359893119,
   2600822924, 528734635, 1541459225]

/-- Big-endian 8-byte encoding of a natural number. -/
def be64 (x : Nat) : List Nat :=
  [x / 2 ^ 56 % 256, x / 2 ^ 48 % 256, x / 2 ^ 40 % 256, x / 2 ^ 32 % 256,
   x / 2 ^ 24 % 256, x / 2 ^ 16 % 256, x / 2 ^ 8 % 256, x % 256]

/-- Big-endian 4-byte encoding of a 32-bit word. -/
def be32bytes (x : Nat) : List Nat :=
  [x / 2 ^ 24 % 256, x / 2 ^ 16 % 256, x / 2 ^ 8 % 256, x % 256]

/-- SHA-256 message padding: append 0x80, zero bytes up to 56 mod 64, then
the bit length as a big-endian 64-bit integer. -/
def sha256pad (msg : List Nat) : List Nat :=
  msg ++ [0x80] ++ List.replicate ((119 - msg.length % 64) % 64) 0 ++ be64 (msg.length * 8)

/-- Group a byte list into big-endian 32-bit words. -/
def bytesToWords : List Nat → List Nat
  | a :: b :: c :: d :: rest => (((a * 256 + b) * 256 + c) * 256 + d) :: bytesToWords rest
  | _ => []

/-- SHA-256 sigma-0 message-schedule function. -/
def smallSigma0 (x : Nat) : Nat := rotr 7 x ^^^ rotr 18 x ^^^ x / 2 ^ 3

/-- SHA-256 sigma-1 message-schedule function. -/
def smallSigma1 (x : Nat) : Nat := rotr 17 x ^^^ rotr 19 x ^^^ x / 2 ^ 10

/-- SHA-256 Sigma-0 compression function. -/
def bigSigma0 (x : Nat) : Nat := rotr 2 x ^^^ rotr 13 x ^^^ rotr 22 x

/-- SHA-256 Sigma-1 compression function. -/
def bigSigma1 (x : Nat) : Nat := rotr 6 x ^^^ rotr 11 x ^^^ rotr 25 x

/-- Extend the message schedule by one word; the accumulator keeps the words
most recent first, so word i-2 sits at position 1, i-7 at 6, i-15 at 14 and
i-16 at 15. -/
def scheduleStep (acc : List Nat) : List Nat :=
  w32 (smallSigma1 (acc.getD 1 0) + acc.getD 6 0 +
       smallSigma0 (acc.getD 14 0) + acc.getD 15 0) :: acc

/-- Extend 16 block words to the full 64-word schedule. -/
def schedule (ws : List Nat) : List Nat :=
  ((List.range 48).foldl (fun acc _ => scheduleStep acc) ws.reverse).reverse

/-- One SHA-256 compression round on the 8-word working state. -/
def shaRound (st : List Nat) (wt kt : Nat) : List Nat :=
  match st with
  | [a, b, c, d, e, f, g, hh] =>
    let ch := (e &&& f) ^^^ ((e ^^^ 0xFFFFFFFF) &&& g)
    let temp1 := w32 (hh + bigSigma1 e + ch + kt + wt)
    let maj := (a &&& b) ^^^ (a &&& c) ^^^ (b &&& c)
    let temp2 := w32 (bigSigma0 a + maj)
    [w32 (temp1 + temp2), a, b, c, w32 (d + temp1), e, f, g]
  | other => other

/-- SHA-256 compression of one 512-bit block into the running state. -/
def compress (h : List Nat) (blockWords : List Nat) : List Nat :=
  let w := schedule blockWords
  let final := (List.zip w shaK).foldl (fun st p => shaRound st p.1 p.2) h
  List.zipWith (fun a b => w32 (a + b)) h final

/-- Fold the compression function over `n` consecutive 16-word blocks. -/
def sha256blocks : Nat → List Nat → List Nat → List Nat
  | 0, h, _ => h
  | n + 1, h, ws => sha256blocks n (compress h (ws.take 16)) (ws.drop 16)

/-- Full SHA-256 of a byte list, producing the 32 digest bytes. -/
def sha256 (msg : List Nat) : List Nat :=
  let ws := bytesToWords (sha256pad msg)
  ((sha256blocks (ws.length / 16) shaH0 ws).map be32bytes).flatten

/-- Double SHA-256, as used for Bitcoin block hashes and merkle nodes
(`sha256d::Hash` in the `bitcoin` crate, `double_sha256` in `lib_struct`). -/
def dsha256 (msg : List Nat) : List Nat := sha256 (sha256 msg)

/-- A merkle proof: sibling hashes bottom-up (internal byte order, the form
`TxMerkleNode::from_str` yields after reversing display hex) and the 0-based
leaf position.  Embeds `lib_struct::MerkleProof` after hex decoding. -/
structure MerkleProofB where
  siblings : List (List Nat)
  pos : Nat
deriving DecidableEq

/-- Loop body of `compute_merkle_root_with_crate` (identical in mint.rs and
burn.rs): fold the current hash over the siblings, concatenating
current-first when `pos` is even and sibling-first when odd, double-SHA-256
hashing the 64-byte concatenation, and halving `pos` each step. -/
def computeMerkleAux : List Nat → List (List Nat) → Nat → List Nat
  | cur, [], _ => cur
  | cur, s :: rest, pos =>
    computeMerkleAux (dsha256 (if pos % 2 = 0 then cur ++ s else s ++ cur)) rest (pos / 2)

/-- Embeds `compute_merkle_root_with_crate`: starting hash is the txid in
internal byte order (`Txid::from_str` then `as_byte_array`). -/
def compute_merkle_root_with_crate (txid : List Nat) (mp : MerkleProofB) : List Nat :=
  computeMerkleAux txid mp.siblings mp.pos

/-- Embeds `verify_tx_inclusion_str`: the computed root is compared with the
target root (both in internal byte order). -/
def verify_tx_inclusion_str (txid : List Nat) (mp : MerkleProofB) (targetRoot : List Nat) : Bool :=
  decide (compute_merkle_root_with_crate txid mp = targetRoot)

/-- The fold described by the specification, written from its words: h starts
at the txid; for each sibling s, h becomes DSHA256(h ++ s) when pos is even
and DSHA256(s ++ h) when pos is odd, and pos is shifted right by one bit. -/
def merkleFoldSpec : List Nat → List (List Nat) → Nat → List Nat
  | h, [], _ => h
  | h, s :: rest, pos =>
    merkleFoldSpec (if pos % 2 = 0 then dsha256 (h ++ s) else dsha256 (s ++ h)) rest (pos >>> 1)

/-- A block as carried in the external envelope, with the hex hash fields
already decoded to internal byte order.  Embeds `lib_struct::Block`. -/
structure BlockB where
  block_hash : List Nat
  version : Nat
  parent_hash : List Nat
  merkle_root : List Nat
  timestamp : Nat
  difficulty : Nat
  nonce : Nat
deriving DecidableEq

/-- A chain of blocks.  Embeds `lib_struct::Chain`. -/
structure ChainB where
  blocks : List BlockB
deriving DecidableEq

/-- Little-endian 4-byte encoding of a 32-bit field, as used by the consensus
serialization of a Bitcoin block header. -/
def le32 (x : Nat) : List Nat :=
  [x % 256, x / 256 % 256, x / 65536 % 256, x / 16777216 % 256]

/-- The 80-byte consensus serialization of the header the verifier rebuilds
from a block's `(version, parent_hash, merkle_root, timestamp, difficulty,
nonce)` fields (`Header { version, prev_blockhash, merkle_root, time, bits,
nonce }` in mint.rs / burn.rs). -/
def serializeHeader (b : BlockB) : List Nat :=
  le32 b.version ++ b.parent_hash ++ b.merkle_root ++
  le32 b.timestamp ++ le32 b.difficulty ++ le32 b.nonce

/-- The hash `Header::block_hash` computes: double SHA-256 of the 80-byte
serialized header, in internal byte order. -/
def blockComputedHash (b : BlockB) : List Nat := dsha256 (serializeHeader b)

/-- Rejection reasons of the chain verifier; every mismatch error names the
offending block index, mirroring the formatted abort messages. -/
inductive ChainError where
  | wrongLength (found : Nat)
  | hashMismatch (index : Nat) (computed claimed : List Nat)
  | parentMismatch (index : Nat) (parent prevComputed : List Nat)
deriving DecidableEq

/-- Loop of `verify_chain_with_crate` (identical in mint.rs and burn.rs):
for each block first compare its computed header hash with the claimed
`block_hash`, then (from the second block on) compare its `parent_hash`
field with the previous block's computed hash. -/
def verifyChainAux : Nat → Option (List Nat) → List BlockB → Except ChainError Unit
  | _, _, [] => .ok ()
  | i, prev, b :: rest =>
    let computed := blockComputedHash b
    if computed ≠ b.block_hash then
      .error (.hashMismatch i computed b.block_hash)
    else
      match prev with
      | some ph =>
        if b.parent_hash ≠ ph then .error (.parentMismatch i b.parent_hash ph)
        else verifyChainAux (i + 1) (some computed) rest
      | none => verifyChainAux (i + 1) (some computed) rest

/-- Embeds `verify_chain_with_crate`: exactly 6 blocks, hash identity for
each block, and parent linkage for every index past the first. -/
def verify_chain_with_crate (c : ChainB) : Except ChainError Unit :=
  if c.blocks.length ≠ 6 then .error (.wrongLength c.blocks.length)
  else verifyChainAux 0 none c.blocks

/-- Big-endian `n`-byte encoding of a natural number, as produced by
`U256::to_be_bytes` for `n = 32`. -/
def beBytes : Nat → Nat → List Nat
  | 0, _ => []
  | n + 1, x => beBytes n (x / 256) ++ [x % 256]

/-- Big-endian interpretation of a byte list. -/
def fromBe (bs : List Nat) : Nat := bs.foldl (fun a b => a * 256 + b) 0

/-- Embeds `abi_encode_zkp_burn` (burn.rs): head slots are the string offset
96, the amount, and the validity flag; the tail is the string length followed
by the UTF-8 bytes zero-padded to a 32-byte boundary. -/
def abi_encode_zkp_burn (burner_btc_address : List Nat) (amount : Nat) (is_valid : Bool) :
    List Nat :=
  let s_bytes := burner_btc_address
  let rem := s_bytes.length % 32
  beBytes 32 96 ++ beBytes 32 amount ++ beBytes 32 (if is_valid then 1 else 0) ++
  beBytes 32 s_bytes.length ++ s_bytes ++
  (if rem = 0 then [] else List.replicate (32 - rem) 0)

/-- Decoder written from the layout in the specification: read the offset
word, the amount, the validity flag (0 or 1) and the string length, then take
that many bytes from offset 128. -/
def abi_decode_zkp_burn (bs : List Nat) : Option (List Nat × Nat × Bool) :=
  if bs.length < 128 then none
  else if fromBe (bs.take 32) ≠ 96 then none
  else
    let amount := fromBe ((bs.drop 32).take 32)
    let validWord := fromBe ((bs.drop 64).take 32)
    let len := fromBe ((bs.drop 96).take 32)
    let data := (bs.drop 128).take len
    if data.length ≠ len then none
    else if validWord = 0 then some (data, amount, false)
    else if validWord = 1 then some (data, amount, true)
    else none

/-- Standard Solidity ABI encoding of the static tuple
`(bytes32 tx_id, address depositer_address, uint256 amount, bool is_valid)`
committed by the mint guest, per `alloy.sol_types::SolType::abi_encode` on
`ZkpMintPublicValuesStruct`: four 32-byte slots, the address left-padded
with 12 zero bytes and the bool encoded as 0 or 1. -/
def abi_encode_mint (tx_id depositer_address : List Nat) (amount : Nat) (is_valid : Bool) :
    List Nat :=
  tx_id ++ (List.replicate 12 0 ++ depositer_address) ++
  beBytes 32 amount ++ beBytes 32 (if is_valid then 1 else 0)

/-- The input bundle read by the guests, after hex decoding.  Embeds
`lib_struct::BundleInfoStruct` (the raw transaction itself is consumed by
library parsing, so only the analysis results enter the guest models). -/
structure BundleB where
  merkle_proof : MerkleProofB
  chains : ChainB
  burner_btc_address : Option (List Nat)
deriving DecidableEq

/-- Control flow of the mint guest `main` after transaction parsing: library
results enter as parameters (`utf8Memo` models `String::from_utf8`, which
panics on invalid UTF-8; `parseChecksummed` models
`Address::parse_checksummed`, returning the 20 address bytes and applied at
the commit site; `txid` is the computed txid in internal byte order;
`total_sats` and `memo` are the outputs of `process_transaction_outputs`).
Any panic is `none`; the committed public-value bytes are `some`. -/
def mint_main (utf8Memo parseChecksummed : List Nat → Option (List Nat)) (txid : List Nat)
    (total_sats : Nat) (memo : Option (List Nat)) (bundle : BundleB) :
    Option (List Nat) :=
  match memo with
  | none => none
  | some mbytes =>
    match utf8Memo mbytes with
    | none => none
    | some memoStr =>
      match bundle.chains.blocks with
      | [] => none
      | b0 :: _ =>
        if verify_tx_inclusion_str txid bundle.merkle_proof b0.merkle_root then
          match verify_chain_with_crate bundle.chains with
          | .ok _ =>
            match parseChecksummed memoStr with
            | none => none
            | some depositer =>
              some (abi_encode_mint txid.reverse depositer total_sats true)
          | .error _ => none
        else none

/-- Control flow of the burn guest `main` after transaction parsing: `txid`
is the computed txid (internal byte order) and `total_sats` the output of
`sum_outputs_to_address`.  Any panic is `none`; the committed public-value
bytes are `some`. -/
def burn_main (txid : List Nat) (total_sats : Nat) (bundle : BundleB) :
    Option (List Nat) :=
  match bundle.burner_btc_address with
  | none => none
  | some addr =>
    match bundle.chains.blocks with
    | [] => none
    | b0 :: _ =>
      if verify_tx_inclusion_str txid bundle.merkle_proof b0.merkle_root then
        match verify_chain_with_crate bundle.chains with
        | .ok _ => some (abi_encode_zkp_burn addr total_sats true)
        | .error _ => none
      else none

/-- Lowercase hex digit for a nibble. -/
def hexDigit (n : Nat) : Char :=
  if n < 10 then Char.ofNat (48 + n) else Char.ofNat (87 + n)

/-- Lowercase hex encoding of a byte list, as `hex::encode` produces. -/
def hexEncode (bs : List Nat) : String :=
  String.mk ((bs.map (fun b => [hexDigit (b / 16 % 16), hexDigit (b % 16)])).flatten)

/-- Error kinds of the TSE host boundary.  Embeds `FfiError` in
TSS_component/rustlib/src/lib.rs. -/
inductive FfiError where
  | Sled (msg : String)
  | Frost (msg : String)
  | Hex (msg : String)
  | Serde (msg : String)
  | Json (msg : String)
  | InvalidIdentifierU16 (msg : String)
  | State (msg : String)
  | MissingData (id : String)
deriving DecidableEq

/-- Outcome of a Rust call that can also panic (an `unwrap` of a library
error aborts the interpreter rather than returning an error value). -/
inductive RustOutcome (ε α : Type) where
  | ok (value : α)
  | err (error : ε)
  | panicked
deriving DecidableEq

/-- The process-wide sled store, modelled as an association list from string
key to opaque bytes; the most recent insert for a key shadows older ones. -/
def SledDb : Type := List (String × List Nat)

/-- Embeds `DB.get`: the value of the most recent insert for the key. -/
def dbGet (db : SledDb) (key : String) : Option (List Nat) :=
  (db.find? (fun p => p.1 == key)).map (fun p => p.2)

/-- Embeds `DB.insert` (overwrite semantics). -/
def dbInsert (db : SledDb) (key : String) (value : List Nat) : SledDb :=
  (key, value) :: db

/-- A signing package: the commitment map carried as (idHex, bytes) pairs
together with the message bytes.  Embeds `SigningPackage::new`. -/
structure SigningPackageM where
  commitments : List (String × List Nat)
  message : List Nat
deriving DecidableEq

/-- Embeds `sign_round1`: load `keypkg_<id>` (MissingData if absent), tweak
it, call `round1::commit` (abstracted as `commit`, producing serialized
nonces and commitments), persist the nonces under `nonces_<id>`, and return
the hex commitments. -/
def sign_round1 (commit : List Nat → List Nat × List Nat) (db : SledDb) (self_id : String) :
    RustOutcome FfiError String × SledDb :=
  match dbGet db ("keypkg_" ++ self_id) with
  | none => (.err (.MissingData ("Missing KeyPackage for ID " ++ self_id)), db)
  | some kp =>
    let result := commit kp
    (.ok (hexEncode result.2), dbInsert db ("nonces_" ++ self_id) result.1)

/-- Embeds `sign_round2`: load `keypkg_<id>` and `nonces_<id>` (MissingData
if either is absent), rebuild the signing package from the peer commitments
and the message, and call `round2::sign_with_tweak` (abstracted as
`signWithTweak` over the serialized key package, nonces and package; its
`unwrap` panics on a library error).  The store is never written: the code
contains no delete or overwrite of the nonce record. -/
def sign_round2 (signWithTweak : List Nat → List Nat → SigningPackageM → Option (List Nat))
    (db : SledDb) (self_id : String) (message : List Nat)
    (commitments : List (String × List Nat)) :
    RustOutcome FfiError String × SledDb :=
  match dbGet db ("keypkg_" ++ self_id) with
  | none => (.err (.MissingData ("Missing KeyPackage for ID " ++ self_id)), db)
  | some kp =>
    match dbGet db ("nonces_" ++ self_id) with
    | none => (.err (.MissingData ("Missing nonces for ID " ++ self_id)), db)
    | some nonces =>
      let signing_package : SigningPackageM := ⟨commitments, message⟩
      match signWithTweak kp nonces signing_package with
      | none => (.panicked, db)
      | some sig_share => (.ok (hexEncode sig_share), db)

/-- Embeds `aggregate_signature`: rebuild the signing package, call
`aggregate_with_tweak` (abstracted as `aggregate`; its `unwrap` panics on a
library error), compute the self-check `verify` on the tweaked key, and
return the hex signature.  The returned value does not depend on the
self-check result: the code only prints it. -/
def aggregate_signature (aggregate : SigningPackageM → List (String × List Nat) → Option (List Nat))
    (verify : List Nat → List Nat → Bool) (message : List Nat)
    (sig_shares : List (String × List Nat)) (commitments : List (String × List Nat)) :
    RustOutcome FfiError String :=
  let signing_package : SigningPackageM := ⟨commitments, message⟩
  match aggregate signing_package sig_shares with
  | none => .panicked
  | some group_signature =>
    let is_signature_valid := verify message group_signature
    let _ := is_signature_valid
    .ok (hexEncode group_signature)

/-- Embeds the verifying-key normalization at the end of `dkg_round3`:
strip a leading 0x02/0x03 byte from a 33-byte serialization, keep a 32-byte
serialization, and fail with a State error on any other length. -/
def dkg_round3_verify_key (serialized_verify_key : List Nat) : Except FfiError (List Nat) :=
  if serialized_verify_key.length = 33 ∧
      (serialized_verify_key.headD 0 = 2 ∨ serialized_verify_key.headD 0 = 3) then
    .ok serialized_verify_key.tail
  else if serialized_verify_key.length = 32 then
    .ok serialized_verify_key
  else
    .error (.State ("Unexpected verifying key length"))

/-- Embeds `init`: if both `keypkg_<id>` and `pubkeypkg_<id>` exist, return
`true` together with the hex of the verifying key serialization and of the
re-serialized public key package (the library maps from the stored bytes are
abstracted as `verifyingKeySerOf` and `reserialize`); the verifying key is
returned exactly as the library serializes it, with no prefix stripping.
Otherwise return `false` and empty strings, always with the identity hex. -/
def init (verifyingKeySerOf reserialize : List Nat → List Nat) (db : SledDb)
    (self_id_hex : String) : RustOutcome FfiError (Bool × String × String × String) :=
  match dbGet db ("keypkg_" ++ self_id_hex), dbGet db ("pubkeypkg_" ++ self_id_hex) with
  | some _, some pubkpBytes =>
    .ok (true, hexEncode (verifyingKeySerOf pubkpBytes), hexEncode (reserialize pubkpBytes),
         self_id_hex)
  | _, _ => .ok (false, "", "", self_id_hex)

/-- Error kinds of the Bitcoin helper module.  Embeds `BtcError` in
TSS_component/rustlib/src/bitcoin_related.rs. -/
inductive BtcError where
  | Hex (msg : String)
  | TxidParse (msg : String)
  | AddressParse (msg : String)
  | Secp256k1 (msg : String)
  | Taproot (msg : String)
  | Sighash (msg : String)
  | InvalidNetwork (network : String)
  | SigHashType (msg : String)
  | SigLength (got : Nat)
  | General (msg : String)
deriving DecidableEq

/-- The dust limit constant `DUST_LIMIT`. -/
def DUST_LIMIT : Nat := 546

/-- Embeds `calculate_change`: estimate 58 + 43 (+ 43) + 10 vbytes, fail
with the insufficient-value `General` error when the UTXO does not cover
send value plus fee, and drop the change when it falls below the dust
limit. -/
def calculate_change (utxo_value send_value fee_rate_sat_per_vbyte : Nat)
    (with_change : Bool) : Except BtcError (Option Nat) :=
  let estimated_vbytes : Nat := if with_change then 58 + 43 + 43 + 10 else 58 + 43 + 10
  let fee := estimated_vbytes * fee_rate_sat_per_vbyte
  if utxo_value < send_value + fee then
    .error (.General ("Insufficient UTXO value: " ++ toString utxo_value ++ " < " ++
      toString send_value ++ " + " ++ toString fee))
  else
    let change := utxo_value - send_value - fee
    if change < DUST_LIMIT then .ok none else .ok (some change)

/-- A transaction output: value in sats and scriptPubKey bytes. -/
structure TxOutM where
  value : Nat
  script_pubkey : List Nat
deriving DecidableEq

/-- A transaction input. -/
structure TxInM where
  prev_txid : List Nat
  prev_vout : Nat
  script_sig : List Nat
  sequence : Nat
  witness : List (List Nat)
deriving DecidableEq

/-- A transaction, version and locktime as raw numbers. -/
structure TransactionM where
  version : Nat
  lock_time : Nat
  input : List TxInM
  output : List TxOutM
deriving DecidableEq

/-- Embeds `create_unsigned_tx` with the address-to-script library lookups
abstracted (`to_script` and `change_script` are the scriptPubKeys the parsed
addresses yield, `txid` the parsed UTXO txid): version 2, locktime 0, a
single input with empty scriptSig, max sequence and empty witness, and
outputs ordered recipient first, change (if any) second. -/
def create_unsigned_tx (txid : List Nat) (utxo_vout utxo_value send_value
    fee_rate_sat_per_vbyte : Nat) (to_script change_script : List Nat) :
    Except BtcError TransactionM :=
  match calculate_change utxo_value send_value fee_rate_sat_per_vbyte true with
  | .error e => .error e
  | .ok maybe_change_value =>
    let tx_outs := [TxOutM.mk send_value to_script] ++
      (match maybe_change_value with
       | some change_val => [TxOutM.mk change_val change_script]
       | none => [])
    .ok ⟨2, 0, [⟨txid, utxo_vout, [], 4294967295, []⟩], tx_outs⟩

/-- Embeds `finalize_signed_tx` with the `bitcoin` library behavior spelled
out: `schnorr::Signature::from_slice` accepts exactly 64 bytes (anything
else is a secp256k1 `InvalidSignature` error), and
`Witness::p2tr_key_spend` on a `taproot::Signature` with sighash type `All`
serializes the signature followed by the 0x01 sighash-type byte, because
`All` is not the `Default` type.  The input at `input_index` receives that
single-element witness. -/
def finalize_signed_tx (tx : TransactionM) (input_index : Nat) (sig_bytes : List Nat) :
    RustOutcome BtcError TransactionM :=
  if sig_bytes.length ≠ 64 then
    .err (.Secp256k1 ("malformed signature"))
  else if h : input_index < tx.input.length then
    let witness_item := sig_bytes ++ [0x01]
    .ok { tx with input :=
      tx.input.set input_index { tx.input[input_index] with witness := [witness_item] } }
  else
    .panicked

/-- The HRP variants reachable from `derive_taproot_address`
(`KnownHrp::Mainnet` renders addresses with `bc`, `KnownHrp::Testnets` with
`tb`). -/
inductive KnownHrpM where
  | Mainnet
  | Testnets
deriving DecidableEq

/-- Bech32 prefix string of an HRP variant. -/
def hrpText : KnownHrpM → String
  | .Mainnet => "bc"
  | .Testnets => "tb"

/-- The data `Address::p2tr` is called with: the HRP, the x-only internal
key, and the script-tree merkle root (`None` for a BIP-86 key-only spend). -/
structure TaprootAddressM where
  hrp : KnownHrpM
  internal_key : List Nat
  script_tree_root : Option (List Nat)
deriving DecidableEq

/-- Embeds `derive_taproot_address`: only the strings `mainnet` and
`testnet` map to an HRP (anything else is `InvalidNetwork`); a 33-byte key
with 0x02/0x03 prefix is stripped, a 32-byte key is used as is, other
lengths are a `General` error; `XOnlyPublicKey::from_slice` (whether the 32
bytes are a valid x coordinate) is abstracted as `xonlyValid`, and the
address is built with an empty script tree. -/
def derive_taproot_address (xonlyValid : List Nat → Bool) (pubkey_bytes : List Nat)
    (network_str : String) : Except BtcError TaprootAddressM :=
  match (if network_str = "mainnet" then some KnownHrpM.Mainnet
         else if network_str = "testnet" then some KnownHrpM.Testnets
         else none) with
  | none => .error (.InvalidNetwork ("Invalid network: " ++ network_str))
  | some hrp =>
    let keyResult : Except BtcError (List Nat) :=
      if pubkey_bytes.length = 33 ∧ (pubkey_bytes.headD 0 = 2 ∨ pubkey_bytes.headD 0 = 3) then
        .ok pubkey_bytes.tail
      else if pubkey_bytes.length = 32 then
        .ok pubkey_bytes
      else
        .error (.General ("Invalid public key length: " ++ toString pubkey_bytes.length))
    match keyResult with
    | .error e => .error e
    | .ok keyBytes =>
      if xonlyValid keyBytes then .ok ⟨hrp, keyBytes, none⟩
      else .error (.SigHashType ("Invalid x-only public key"))

/-- Sample single-input transaction for concrete finalization runs. -/
def tx0 : TransactionM :=
  ⟨2, 0, [⟨List.replicate 32 0, 0, [], 4294967295, []⟩], [⟨1000, [0]⟩]⟩

/-- A 64-byte signature sample. -/
def sig64 : List Nat := List.replicate 64 0

/-- A 65-byte signature sample whose last byte is the 0x01 sighash suffix. -/
def sig65 : List Nat := List.replicate 64 0 ++ [1]

/-- A 33-byte compressed verifying-key serialization with 0x02 prefix. -/
def k33 : List Nat := 2 :: List.replicate 32 5

/-- A store holding key material for participant id hex 0001. -/
def dbReady : SledDb :=
  [("keypkg_0001", [9, 9]), ("pubkeypkg_0001", [7, 7]), ("nonces_0001", [5, 5])]

/-- Concrete six-block chain whose claimed hashes are the true double
SHA-256 header hashes; block 0 carries the sample txid as merkle root. -/
def wblock0 : BlockB :=
  ⟨[231, 189, 237, 254, 48, 142, 117, 82, 129, 131, 154, 9, 21, 129, 229, 13, 119, 152, 177, 217, 32, 217, 155, 136, 143, 162, 42, 215, 238, 210, 238, 148],
   1, List.replicate 32 0, List.replicate 32 17, 1000, 486604799, 0⟩

/-- Second block of the concrete chain. -/
def wblock1 : BlockB :=
  ⟨[255, 248, 168, 12, 5, 231, 124, 255, 175, 147, 102, 53, 182, 21, 42, 195, 217, 50, 29, 5, 120, 248, 223, 68, 165, 11, 142, 86, 135, 245, 145, 33],
   1, [231, 189, 237, 254, 48, 142, 117, 82, 129, 131, 154, 9, 21, 129, 229, 13, 119, 152, 177, 217, 32, 217, 155, 136, 143, 162, 42, 215, 238, 210, 238, 148],
   List.replicate 32 34, 1001, 486604799, 1⟩

/-- Third block of the concrete chain. -/
def wblock2 : BlockB :=
  ⟨[10, 160, 253, 124, 74, 174, 52, 133, 170, 121, 216, 113, 190, 39, 87, 125, 124, 97, 160, 165, 34, 231, 116, 126, 64, 192, 198, 54, 106, 49, 205, 23],
   1, [255, 248, 168, 12, 5, 231, 124, 255, 175, 147, 102, 53, 182, 21, 42, 195, 217, 50, 29, 5, 120, 248, 223, 68, 165, 11, 142, 86, 135, 245, 145, 33],
   List.replicate 32 34, 1002, 486604799, 2⟩

/-- Fourth block of the concrete chain. -/
def wblock3 : BlockB :=
  ⟨[2, 97, 76, 238, 114, 128, 87, 17, 149, 88, 64, 107, 42, 232, 147, 102, 113, 69, 10, 156, 208, 137, 9, 70, 127, 128, 166, 230, 52, 148, 31, 253],
   1, [10, 160, 253, 124, 74, 174, 52, 133, 170, 121, 216, 113, 190, 39, 87, 125, 124, 97, 160, 165, 34, 231, 116, 126, 64, 192, 198, 54, 106, 49, 205, 23],
   List.replicate 32 34, 1003, 486604799, 3⟩

/-- Fifth block of the concrete chain. -/
def wblock4 : BlockB :=
  ⟨[51, 180, 63, 115, 164, 113, 38, 244, 204, 8, 82, 151, 152, 190, 83, 31, 91, 55, 12, 199, 197, 102, 190, 60, 16, 24, 85, 225, 101, 25, 160, 96],
   1, [2, 97, 76, 238, 114, 128, 87, 17, 149, 88, 64, 107, 42, 232, 147, 102, 113, 69, 10, 156, 208, 137, 9, 70, 127, 128, 166, 230, 52, 148, 31, 253],
   List.replicate 32 34, 1004, 486604799, 4⟩

/-- Sixth block of the concrete chain. -/
def wblock5 : BlockB :=
  ⟨[145, 130, 13, 232, 73, 153, 187, 56, 250, 69, 216, 174, 78, 206, 211, 160, 54, 29, 11, 210, 208, 190, 106, 165, 134, 81, 78, 40, 48, 177, 155, 14],
   1, [51, 180, 63, 115, 164, 113, 38, 244, 204, 8, 82, 151, 152, 190, 83, 31, 91, 55, 12, 199, 197, 102, 190, 60, 16, 24, 85, 225, 101, 25, 160, 96],
   List.replicate 32 34, 1005, 486604799, 5⟩

/-- The concrete six-block chain. -/
def wchain : ChainB := ⟨[wblock0, wblock1, wblock2, wblock3, wblock4, wblock5]⟩

/-- Sample txid (internal byte order), equal to block 0's merkle root so
that the empty merkle path at position 0 proves inclusion. -/
def wtxid : List Nat := List.replicate 32 17

/-- Bundle for a concrete mint guest run. -/
def wbundleMint : BundleB := ⟨⟨[], 0⟩, wchain, none⟩

/-- Bundle for a concrete burn guest run, with a burner address present. -/
def wbundleBurn : BundleB := ⟨⟨[], 0⟩, wchain, some [98, 117, 114, 110]⟩

/-- Sample 20-byte EVM address. -/
def waddr20 : List Nat := List.replicate 20 7

/-- The public values the concrete mint run commits. -/
def wmintBytes : List Nat := abi_encode_mint wtxid.reverse waddr20 1000 true

/-- The public values the concrete burn run commits. -/
def wburnBytes : List Nat := abi_encode_zkp_burn [98, 117, 114, 110] 500 true

/-- Every block satisfies hash identity: the double-SHA-256 of its rebuilt
80-byte header equals its claimed block hash. -/
def AllHashOk (bs : List BlockB) : Prop :=
  ∀ j (hj : j < bs.length), blockComputedHash bs[j] = bs[j].block_hash

/-- Every block past the first links to the previous block's computed
hash. -/
def ParentLinksOk (bs : List BlockB) : Prop :=
  ∀ j (hj : j + 1 < bs.length), bs[j + 1].parent_hash = blockComputedHash bs[j]

lemma computeMerkleAux_eq_fold (sibs : List (List Nat)) :
    ∀ (cur : List Nat) (pos : Nat), computeMerkleAux cur sibs pos = merkleFoldSpec cur sibs pos := by
  induction sibs with
  | nil => intro cur pos; rfl
  | cons s rest ih =>
    intro cur pos
    simp only [computeMerkleAux, merkleFoldSpec, Nat.shiftRight_one, apply_ite dsha256]
    exact ih _ _

/-- C8: the merkle inclusion verifier returns true exactly when folding the
txid (internal byte order) over the siblings — hashing current-first when
the running position is even and sibling-first when odd, shifting the
position right one bit per sibling — reproduces the target root. -/
theorem C8_merkle_inclusion_iff_fold (txid : List Nat) (siblings : List (List Nat))
    (pos : Nat) (targetRoot : List Nat) :
    verify_tx_inclusion_str txid ⟨siblings, pos⟩ targetRoot = true ↔
      merkleFoldSpec txid siblings pos = targetRoot := by
  simp only [verify_tx_inclusion_str, compute_merkle_root_with_crate,
    computeMerkleAux_eq_fold, decide_eq_true_eq]

/-- C1: contrary to the nonce single-use requirement, `sign_round2` performs
no delete or overwrite of the nonce record: after a successful call the
store is unchanged, `nonces_<id>` is still present with the same bytes, and
a second identical call succeeds again with the same underlying nonces
instead of failing with MissingData. -/
theorem C1_sign_round2_keeps_nonces
    (signWithTweak : List Nat → List Nat → SigningPackageM → Option (List Nat))
    (db : SledDb) (self_id : String) (message : List Nat)
    (commitments : List (String × List Nat)) (kp nonces share : List Nat)
    (hkp : dbGet db ("keypkg_" ++ self_id) = some kp)
    (hn : dbGet db ("nonces_" ++ self_id) = some nonces)
    (hs : signWithTweak kp nonces ⟨commitments, message⟩ = some share) :
    sign_round2 signWithTweak db self_id message commitments = (.ok (hexEncode share), db) ∧
    dbGet (sign_round2 signWithTweak db self_id message commitments).2
      ("nonces_" ++ self_id) = some nonces ∧
    sign_round2 signWithTweak
        (sign_round2 signWithTweak db self_id message commitments).2
        self_id message commitments = (.ok (hexEncode share), db) := by
  have h1 : sign_round2 signWithTweak db self_id message commitments =
      (.ok (hexEncode share), db) := by
    simp only [sign_round2, hkp, hn, hs]
  exact ⟨h1, by rw [h1]; exact hn, by rw [h1]; exact h1⟩

/-- Witness for C1 on a concrete ready store. -/
theorem C1_sign_round2_keeps_nonces_witness :
    dbGet dbReady ("keypkg_" ++ "0001") = some [9, 9] ∧
    dbGet dbReady ("nonces_" ++ "0001") = some [5, 5] ∧
    (sign_round2 (fun _ _ _ => some [3]) dbReady ("0001") [1] [] =
        (.ok (hexEncode [3]), dbReady) ∧
      dbGet (sign_round2 (fun _ _ _ => some [3]) dbReady ("0001") [1] []).2
        ("nonces_" ++ "0001") = some [5, 5] ∧
      sign_round2 (fun _ _ _ => some [3])
          (sign_round2 (fun _ _ _ => some [3]) dbReady ("0001") [1] []).2
          ("0001") [1] [] = (.ok (hexEncode [3]), dbReady)) :=
  ⟨by decide, by decide,
   C1_sign_round2_keeps_nonces (fun _ _ _ => some [3]) dbReady ("0001") [1] []
     [9, 9] [5, 5] [3] (by decide) (by decide) rfl⟩

/-- C2: `aggregate_signature` computes the self-check but does not gate the
return on it — even when verification of the aggregated signature fails, the
call returns the signature hex instead of reporting an error. -/
theorem C2_aggregate_ignores_failed_check
    (aggregate : SigningPackageM → List (String × List Nat) → Option (List Nat))
    (verify : List Nat → List Nat → Bool) (message : List Nat)
    (sig_shares commitments : List (String × List Nat)) (group_signature : List Nat)
    (hagg : aggregate ⟨commitments, message⟩ sig_shares = some group_signature)
    (hver : verify message group_signature = false) :
    aggregate_signature aggregate verify message sig_shares commitments =
      .ok (hexEncode group_signature) := by
  have _ := hver
  simp only [aggregate_signature, hagg]

/-- Witness for C2 with a failing self-check. -/
theorem C2_aggregate_ignores_failed_check_witness :
    ((fun (_ : SigningPackageM) (_ : List (String × List Nat)) => some [1, 2])
        (⟨[], [7]⟩ : SigningPackageM) [] = some [1, 2]) ∧
    ((fun (_ : List Nat) (_ : List Nat) => false) [7] [1, 2] = false) ∧
    aggregate_signature (fun _ _ => some [1, 2]) (fun _ _ => false) [7] [] [] =
      .ok (hexEncode [1, 2]) :=
  ⟨rfl, rfl,
   C2_aggregate_ignores_failed_check (fun _ _ => some [1, 2]) (fun _ _ => false)
     [7] [] [] [1, 2] rfl rfl⟩

/-- Counterexample to C3 as stated: a 65-byte signature ending in 0x01 is
rejected (the secp256k1 parser accepts only 64 bytes), and a 64-byte
signature yields a witness item with the 0x01 sighash suffix appended, not
the raw signature. -/
theorem C3_counterexample :
    finalize_signed_tx tx0 0 sig65 = .err (.Secp256k1 ("malformed signature")) ∧
    finalize_signed_tx tx0 0 sig64 =
      .ok ⟨2, 0, [⟨List.replicate 32 0, 0, [], 4294967295, [sig64 ++ [1]]⟩], [⟨1000, [0]⟩]⟩ ∧
    sig64 ++ [1] ≠ sig64 := by
  refine ⟨by decide, by decide, by decide⟩

/-- C3 amended: on a single-input transaction a 64-byte signature is
accepted and input 0's witness becomes the single item consisting of the
signature followed by the 0x01 sighash-type byte (65 bytes, because the
sighash type `All` is not `Default`); any other signature length — 65 bytes
included — fails with a secp256k1 parse error, and the `SigLength` error is
never produced. -/
theorem C3_finalize_behavior (tx : TransactionM) (i0 : TxInM) (sig : List Nat)
    (hinput : tx.input = [i0]) :
    (sig.length = 64 →
      finalize_signed_tx tx 0 sig =
        .ok ⟨tx.version, tx.lock_time,
             [⟨i0.prev_txid, i0.prev_vout, i0.script_sig, i0.sequence, [sig ++ [1]]⟩],
             tx.output⟩) ∧
    (sig.length ≠ 64 →
      finalize_signed_tx tx 0 sig = .err (.Secp256k1 ("malformed signature"))) := by
  constructor
  · intro h
    simp [finalize_signed_tx, hinput, h]
  · intro h
    simp [finalize_signed_tx, h]

/-- Witness for C3 on the sample transaction with both signature lengths. -/
theorem C3_finalize_behavior_witness :
    tx0.input = [⟨List.replicate 32 0, 0, [], 4294967295, []⟩] ∧
    sig64.length = 64 ∧ sig65.length ≠ 64 ∧
    finalize_signed_tx tx0 0 sig64 =
      .ok ⟨tx0.version, tx0.lock_time,
           [⟨List.replicate 32 0, 0, [], 4294967295, [sig64 ++ [1]]⟩], tx0.output⟩ ∧
    finalize_signed_tx tx0 0 sig65 = .err (.Secp256k1 ("malformed signature")) :=
  ⟨rfl, by decide, by decide,
   (C3_finalize_behavior tx0 ⟨List.replicate 32 0, 0, [], 4294967295, []⟩ sig64 rfl).1
     (by decide),
   (C3_finalize_behavior tx0 ⟨List.replicate 32 0, 0, [], 4294967295, []⟩ sig65 rfl).2
     (by decide)⟩

/-- Counterexample to C4 as stated: `init` with key material present returns
the verifying key exactly as the library serializes it; with the compressed
33-byte serialization the returned hex has 66 characters, so it does not
decode to 32 bytes and no prefix is stripped. -/
theorem C4_counterexample :
    init (fun _ => k33) (fun b => b) dbReady ("0001") =
      .ok (true, hexEncode k33, hexEncode [7, 7], "0001") ∧
    k33.length = 33 ∧ k33.headD 0 = 2 ∧
    (hexEncode k33).length = 66 := by
  refine ⟨by decide, by decide, by decide, by decide⟩

/-- C4 amended: `dkg_round3` normalizes the verifying key — a 33-byte
serialization with 0x02/0x03 prefix is stripped to 32 bytes and a 32-byte
one is passed through — but `init` performs no stripping and returns the
hex of whatever the library serialization is. -/
theorem C4_key_normalization (k : List Nat) (f g : List Nat → List Nat)
    (db : SledDb) (id : String) (kpb pkb : List Nat)
    (hkp : dbGet db ("keypkg_" ++ id) = some kpb)
    (hpk : dbGet db ("pubkeypkg_" ++ id) = some pkb) :
    (k.length = 33 → k.headD 0 = 2 ∨ k.headD 0 = 3 →
      dkg_round3_verify_key k = .ok k.tail ∧ k.tail.length = 32) ∧
    (k.length = 32 → dkg_round3_verify_key k = .ok k) ∧
    init f g db id = .ok (true, hexEncode (f pkb), hexEncode (g pkb), id) := by
  refine ⟨?_, ?_, ?_⟩
  · intro h1 h2
    cases k with
    | nil => simp at h1
    | cons a rest =>
      simp only [List.headD_cons] at h2
      have hr : rest.length = 32 := by
        simp only [List.length_cons] at h1; omega
      constructor
      · rcases h2 with h2 | h2 <;> simp [dkg_round3_verify_key, h1, h2, hr]
      · simp only [List.length_cons] at h1
        simp only [List.tail_cons]
        omega
  · intro h
    simp [dkg_round3_verify_key, h]
  · simp only [init, hkp, hpk]

/-- Witness for C4 on the ready store, the 33-byte and a 32-byte key. -/
theorem C4_key_normalization_witness :
    (dkg_round3_verify_key k33 = .ok k33.tail ∧ k33.tail.length = 32) ∧
    dkg_round3_verify_key (List.replicate 32 5) = .ok (List.replicate 32 5) ∧
    init (fun _ => k33) (fun b => b) dbReady ("0001") =
      .ok (true, hexEncode ((fun _ => k33) [7, 7]),
           hexEncode ((fun (b : List Nat) => b) [7, 7]), "0001") :=
  ⟨(C4_key_normalization k33 (fun _ => k33) (fun b => b) dbReady ("0001") [9, 9] [7, 7]
      (by decide) (by decide)).1 (by decide) (Or.inl (by decide)),
   (C4_key_normalization (List.replicate 32 5) (fun _ => k33) (fun b => b) dbReady ("0001")
      [9, 9] [7, 7] (by decide) (by decide)).2.1 (by decide),
   (C4_key_normalization k33 (fun _ => k33) (fun b => b) dbReady ("0001") [9, 9] [7, 7]
      (by decide) (by decide)).2.2⟩

/-- Counterexample to C5 as stated: the network strings signet and regtest
are rejected with InvalidNetwork instead of yielding a tb address. -/
theorem C5_counterexample :
    derive_taproot_address (fun _ => true) (List.replicate 32 1) ("signet") =
      .error (.InvalidNetwork ("Invalid network: signet")) ∧
    derive_taproot_address (fun _ => true) (List.replicate 32 1) ("regtest") =
      .error (.InvalidNetwork ("Invalid network: regtest")) := by
  refine ⟨by decide, by decide⟩

/-- C5 amended: for a valid pubkey (33 bytes with 0x02/0x03 prefix, which is
stripped, or 32 bytes x-only) the derivation succeeds for mainnet (HRP bc)
and testnet (HRP tb) with an empty script tree, while signet and regtest
fail with InvalidNetwork. -/
theorem C5_network_handling (xonlyValid : List Nat → Bool) (pubkey_bytes key : List Nat)
    (hshape : (pubkey_bytes.length = 33 ∧
                (pubkey_bytes.headD 0 = 2 ∨ pubkey_bytes.headD 0 = 3) ∧
                key = pubkey_bytes.tail) ∨
              (pubkey_bytes.length = 32 ∧ key = pubkey_bytes))
    (hvalid : xonlyValid key = true) :
    derive_taproot_address xonlyValid pubkey_bytes ("mainnet") = .ok ⟨.Mainnet, key, none⟩ ∧
    derive_taproot_address xonlyValid pubkey_bytes ("testnet") = .ok ⟨.Testnets, key, none⟩ ∧
    hrpText .Mainnet = "bc" ∧ hrpText .Testnets = "tb" ∧
    derive_taproot_address xonlyValid pubkey_bytes ("signet") =
      .error (.InvalidNetwork ("Invalid network: signet")) ∧
    derive_taproot_address xonlyValid pubkey_bytes ("regtest") =
      .error (.InvalidNetwork ("Invalid network: regtest")) := by
  rcases hshape with ⟨h33, hpre, hkey⟩ | ⟨h32, hkey⟩
  · subst hkey
    cases pubkey_bytes with
    | nil => simp at h33
    | cons a rest =>
      simp only [List.headD_cons] at hpre
      simp only [List.tail_cons] at hvalid
      have hr : rest.length = 32 := by
        simp only [List.length_cons] at h33; omega
      rcases hpre with hpre | hpre <;>
        refine ⟨?_, ?_, rfl, rfl, ?_, ?_⟩ <;>
          simp [derive_taproot_address, h33, hpre, hvalid, hr]
  · subst hkey
    refine ⟨?_, ?_, rfl, rfl, ?_, ?_⟩ <;>
      simp [derive_taproot_address, h32, hvalid]

/-- Witness for C5 on concrete 33-byte and 32-byte keys. -/
theorem C5_network_handling_witness :
    (derive_taproot_address (fun _ => true) k33 ("mainnet") =
        .ok ⟨.Mainnet, k33.tail, none⟩ ∧
      derive_taproot_address (fun _ => true) k33 ("testnet") =
        .ok ⟨.Testnets, k33.tail, none⟩ ∧
      hrpText .Mainnet = "bc" ∧ hrpText .Testnets = "tb" ∧
      derive_taproot_address (fun _ => true) k33 ("signet") =
        .error (.InvalidNetwork ("Invalid network: signet")) ∧
      derive_taproot_address (fun _ => true) k33 ("regtest") =
        .error (.InvalidNetwork ("Invalid network: regtest"))) ∧
    derive_taproot_address (fun _ => true) (List.replicate 32 1) ("mainnet") =
      .ok ⟨.Mainnet, List.replicate 32 1, none⟩ :=
  ⟨C5_network_handling (fun _ => true) k33 k33.tail
     (Or.inl ⟨by decide, Or.inl (by decide), rfl⟩) rfl,
   (C5_network_handling (fun _ => true) (List.replicate 32 1) (List.replicate 32 1)
     (Or.inr ⟨by decide, rfl⟩) rfl).1⟩

/-- C6: with the with-change fee estimate of (58+43+43+10) vbytes, when the
UTXO equals send value plus fee plus a surplus d below the dust limit the
unsigned transaction has the single recipient output (the surplus becomes
fee, so the implied fee is utxo minus send); when d is at least the dust
limit there are exactly two outputs, recipient first and change of value d
second; and when the UTXO cannot cover send value plus the with-change fee
the call fails with the insufficient-value error. -/
theorem C6_fee_and_dust (txid to_script change_script : List Nat)
    (utxo_vout utxo send rate d : Nat) :
    (utxo = send + 154 * rate + d → d < 546 →
      create_unsigned_tx txid utxo_vout utxo send rate to_script change_script =
        .ok ⟨2, 0, [⟨txid, utxo_vout, [], 4294967295, []⟩], [⟨send, to_script⟩]⟩ ∧
      utxo - send = 154 * rate + d) ∧
    (utxo = send + 154 * rate + d → 546 ≤ d →
      create_unsigned_tx txid utxo_vout utxo send rate to_script change_script =
        .ok ⟨2, 0, [⟨txid, utxo_vout, [], 4294967295, []⟩],
             [⟨send, to_script⟩, ⟨d, change_script⟩]⟩) ∧
    (utxo < send + 154 * rate →
      ∃ msg, create_unsigned_tx txid utxo_vout utxo send rate to_script change_script =
        .error (.General msg)) := by
  refine ⟨?_, ?_, ?_⟩
  · intro h hd
    have hnot : ¬ utxo < send + (58 + 43 + 43 + 10) * rate := by omega
    have hch : utxo - send - (58 + 43 + 43 + 10) * rate = d := by omega
    constructor
    · simp [create_unsigned_tx, calculate_change, DUST_LIMIT, hnot, hch, hd]
    · omega
  · intro h hd
    have hnot : ¬ utxo < send + (58 + 43 + 43 + 10) * rate := by omega
    have hch : utxo - send - (58 + 43 + 43 + 10) * rate = d := by omega
    have hnd : ¬ d < 546 := by omega
    simp [create_unsigned_tx, calculate_change, DUST_LIMIT, hnot, hch, hnd]
  · intro h
    have hlt : utxo < send + (58 + 43 + 43 + 10) * rate := by omega
    refine ⟨"Insufficient UTXO value: " ++ toString utxo ++ " < " ++ toString send ++
      " + " ++ toString ((58 + 43 + 43 + 10) * rate), ?_⟩
    simp [create_unsigned_tx, calculate_change, hlt]

/-- Witness for C6 at the three concrete fee scenarios: a two-output build
with change 48460, a one-output build with surplus 5, and an insufficient
UTXO. -/
theorem C6_fee_and_dust_witness :
    ((100000 : Nat) = 50000 + 154 * 10 + 48460 ∧ (546 : Nat) ≤ 48460 ∧
      create_unsigned_tx [1] 0 100000 50000 10 [2] [3] =
        .ok ⟨2, 0, [⟨[1], 0, [], 4294967295, []⟩], [⟨50000, [2]⟩, ⟨48460, [3]⟩]⟩) ∧
    ((51545 : Nat) = 50000 + 154 * 10 + 5 ∧ (5 : Nat) < 546 ∧
      create_unsigned_tx [1] 0 51545 50000 10 [2] [3] =
        .ok ⟨2, 0, [⟨[1], 0, [], 4294967295, []⟩], [⟨50000, [2]⟩]⟩ ∧
      (51545 : Nat) - 50000 = 154 * 10 + 5) ∧
    ((51000 : Nat) < 50000 + 154 * 10 ∧
      ∃ msg, create_unsigned_tx [1] 0 51000 50000 10 [2] [3] = .error (.General msg)) :=
  ⟨⟨by decide, by decide,
    (C6_fee_and_dust [1] [2] [3] 0 100000 50000 10 48460).2.1 (by decide) (by decide)⟩,
   ⟨by decide, by decide,
    (C6_fee_and_dust [1] [2] [3] 0 51545 50000 10 5).1 (by decide) (by decide)⟩,
   ⟨by decide,
    (C6_fee_and_dust [1] [2] [3] 0 51000 50000 10 0).2.2 (by decide)⟩⟩

lemma allHashOk_cons (b : BlockB) (rest : List BlockB) :
    AllHashOk (b :: rest) ↔ (blockComputedHash b = b.block_hash ∧ AllHashOk rest) := by
  unfold AllHashOk
  constructor
  · intro h
    refine ⟨?_, ?_⟩
    · have h0 : (0 : Nat) < (b :: rest).length := by simp
      simpa using h 0 h0
    · intro j hj
      have hj' : j + 1 < (b :: rest).length := by simp only [List.length_cons]; omega
      simpa using h (j + 1) hj'
  · rintro ⟨h0, h⟩ j hj
    cases j with
    | zero => simpa using h0
    | succ j' =>
      have hj' : j' < rest.length := by simp only [List.length_cons] at hj; omega
      simpa using h j' hj'

lemma parentLinksOk_cons (b : BlockB) (rest : List BlockB) :
    ParentLinksOk (b :: rest) ↔
      ((∀ (h0 : 0 < rest.length), rest[0].parent_hash = blockComputedHash b) ∧
       ParentLinksOk rest) := by
  unfold ParentLinksOk
  constructor
  · intro h
    refine ⟨?_, ?_⟩
    · intro h0
      have hj' : 0 + 1 < (b :: rest).length := by simp only [List.length_cons]; omega
      simpa using h 0 hj'
    · intro j hj
      have hj' : (j + 1) + 1 < (b :: rest).length := by simp only [List.length_cons] at hj ⊢; omega
      simpa using h (j + 1) hj'
  · rintro ⟨h0, h⟩ j hj
    cases j with
    | zero =>
      have hr : 0 < rest.length := by simp only [List.length_cons] at hj; omega
      simpa using h0 hr
    | succ j' =>
      have hj'' : j' + 1 < rest.length := by simp only [List.length_cons] at hj; omega
      simpa using h j' hj''

lemma verifyChainAux_ok_iff (bs : List BlockB) :
    ∀ (i : Nat) (prev : Option (List Nat)),
      verifyChainAux i prev bs = .ok () ↔
        (AllHashOk bs ∧
         (∀ ph, prev = some ph → ∀ (h0 : 0 < bs.length), bs[0].parent_hash = ph) ∧
         ParentLinksOk bs) := by
  induction bs with
  | nil =>
    intro i prev
    constructor
    · intro _
      exact ⟨fun j hj => absurd hj (by simp), fun ph _ h0 => absurd h0 (by simp),
        fun j hj => absurd hj (by simp)⟩
    · intro _; rfl
  | cons b rest ih =>
    intro i prev
    cases prev with
    | none =>
      rw [show verifyChainAux i none (b :: rest) =
            (if blockComputedHash b ≠ b.block_hash then
               Except.error (ChainError.hashMismatch i (blockComputedHash b) b.block_hash)
             else verifyChainAux (i + 1) (some (blockComputedHash b)) rest) from rfl]
      by_cases hhash : blockComputedHash b = b.block_hash
      · rw [if_neg (by simp [hhash]), ih (i + 1) (some (blockComputedHash b)),
          allHashOk_cons, parentLinksOk_cons]
        constructor
        · rintro ⟨hAll, hHead, hLinks⟩
          exact ⟨⟨hhash, hAll⟩, fun ph hph => Option.noConfusion hph,
            fun h0 => hHead _ rfl h0, hLinks⟩
        · rintro ⟨⟨_, hAll⟩, _, hHead0, hLinks⟩
          exact ⟨hAll,
            fun ph2 hph2 h0 => by rw [← Option.some.inj hph2]; exact hHead0 h0, hLinks⟩
      · rw [if_pos hhash]
        constructor
        · intro h; exact Except.noConfusion h
        · rintro ⟨hAll, _, _⟩
          rw [allHashOk_cons] at hAll
          exact absurd hAll.1 hhash
    | some ph =>
      rw [show verifyChainAux i (some ph) (b :: rest) =
            (if blockComputedHash b ≠ b.block_hash then
               Except.error (ChainError.hashMismatch i (blockComputedHash b) b.block_hash)
             else if b.parent_hash ≠ ph then
               Except.error (ChainError.parentMismatch i b.parent_hash ph)
             else verifyChainAux (i + 1) (some (blockComputedHash b)) rest) from rfl]
      by_cases hhash : blockComputedHash b = b.block_hash
      · rw [if_neg (by simp [hhash])]
        by_cases hpar : b.parent_hash = ph
        · rw [if_neg (by simp [hpar]), ih (i + 1) (some (blockComputedHash b)),
            allHashOk_cons, parentLinksOk_cons]
          constructor
          · rintro ⟨hAll, hHead, hLinks⟩
            refine ⟨⟨hhash, hAll⟩, ?_, fun h0 => hHead _ rfl h0, hLinks⟩
            intro ph2 hph2 h0
            have hp2 : ph = ph2 := Option.some.inj hph2
            subst hp2
            simpa using hpar
          · rintro ⟨⟨_, hAll⟩, _, hHead0, hLinks⟩
            exact ⟨hAll,
              fun ph2 hph2 h0 => by rw [← Option.some.inj hph2]; exact hHead0 h0, hLinks⟩
        · rw [if_pos hpar]
          constructor
          · intro h; exact Except.noConfusion h
          · rintro ⟨_, hHead, _⟩
            have h0 : 0 < (b :: rest).length := by simp
            have hcon := hHead ph rfl h0
            simp only [List.getElem_cons_zero] at hcon
            exact absurd hcon hpar
      · rw [if_pos hhash]
        constructor
        · intro h; exact Except.noConfusion h
        · rintro ⟨hAll, _, _⟩
          rw [allHashOk_cons] at hAll
          exact absurd hAll.1 hhash

/-- C7: the header chain verifier accepts exactly when there are 6 blocks,
every block's double-SHA-256 header hash (computed from version,
parent_hash, merkle_root, timestamp, difficulty, nonce) equals its claimed
block_hash, and every block past the first carries the computed hash of its
predecessor as parent_hash; on any violation it returns an error, whose
mismatch constructors name the offending block index. -/
theorem C7_chain_verifier_iff (c : ChainB) :
    verify_chain_with_crate c = .ok () ↔
      (c.blocks.length = 6 ∧ AllHashOk c.blocks ∧ ParentLinksOk c.blocks) := by
  unfold verify_chain_with_crate
  by_cases hlen : c.blocks.length = 6
  · rw [if_neg (by simp [hlen]), verifyChainAux_ok_iff]
    constructor
    · rintro ⟨hAll, _, hLinks⟩
      exact ⟨hlen, hAll, hLinks⟩
    · rintro ⟨_, hAll, hLinks⟩
      exact ⟨hAll, fun ph hph => Option.noConfusion hph, hLinks⟩
  · rw [if_pos (by simp [hlen])]
    constructor
    · intro h; exact Except.noConfusion h
    · rintro ⟨h6, _, _⟩
      exact absurd h6 hlen

lemma beBytes_length (n : Nat) : ∀ x : Nat, (beBytes n x).length = n := by
  induction n with
  | zero => intro x; rfl
  | succ n ih => intro x; simp [beBytes, ih]

lemma foldl_beBytes (n : Nat) : ∀ (x acc : Nat), x < 256 ^ n →
    (beBytes n x).foldl (fun a b => a * 256 + b) acc = acc * 256 ^ n + x := by
  induction n with
  | zero =>
    intro x acc h
    simp only [beBytes, List.foldl_nil, pow_zero]
    omega
  | succ n ih =>
    intro x acc h
    have hdiv : x / 256 < 256 ^ n := by
      rw [Nat.div_lt_iff_lt_mul (by norm_num)]
      rw [pow_succ] at h
      exact h
    rw [beBytes, List.foldl_append, ih (x / 256) acc hdiv]
    simp only [List.foldl_cons, List.foldl_nil]
    have hdm := Nat.div_add_mod x 256
    calc (acc * 256 ^ n + x / 256) * 256 + x % 256
        = acc * (256 ^ n * 256) + (256 * (x / 256) + x % 256) := by ring
      _ = acc * 256 ^ (n + 1) + x := by rw [hdm, pow_succ]

lemma fromBe_beBytes (n x : Nat) (h : x < 256 ^ n) : fromBe (beBytes n x) = x := by
  have := foldl_beBytes n x 0 h
  simpa [fromBe] using this

lemma take_len_append (l r : List Nat) (n : Nat) (h : l.length = n) :
    (l ++ r).take n = l := by
  subst h; exact List.take_left l r

lemma drop_len_append (l r : List Nat) (n : Nat) (h : l.length = n) :
    (l ++ r).drop n = r := by
  subst h; exact List.drop_left l r

lemma lt_rpow32 (x : Nat) (h : x < 2 ^ 64) : x < 256 ^ 32 := by
  calc x < 2 ^ 64 := h
    _ ≤ 256 ^ 32 := by norm_num

/-- C9: the burn encoder lays out offset 0x60, the amount, the validity flag
and the string length as big-endian 32-byte words, followed by the address
bytes zero-padded to a 32-byte boundary; the total length is
128 + ceil(len/32)*32 and decoding the emitted bytes by this layout recovers
the original address bytes, amount and flag exactly. -/
theorem C9_burn_abi_roundtrip (addr : List Nat) (amount : Nat) (is_valid : Bool)
    (hamount : amount < 2 ^ 64) (hlen : addr.length < 2 ^ 64) :
    (abi_encode_zkp_burn addr amount is_valid).length =
      128 + ((addr.length + 31) / 32) * 32 ∧
    abi_decode_zkp_burn (abi_encode_zkp_burn addr amount is_valid) =
      some (addr, amount, is_valid) := by
  have hlenc : (abi_encode_zkp_burn addr amount is_valid).length =
      128 + ((addr.length + 31) / 32) * 32 := by
    simp only [abi_encode_zkp_burn, List.length_append, beBytes_length,
      apply_ite List.length, List.length_replicate, List.length_nil]
    split_ifs with hrem <;> omega
  refine ⟨hlenc, ?_⟩
  have hofs : fromBe ((abi_encode_zkp_burn addr amount is_valid).take 32) = 96 := by
    rw [abi_encode_zkp_burn]
    simp only [List.append_assoc]
    rw [take_len_append _ _ _ (beBytes_length 32 96), fromBe_beBytes 32 96 (by norm_num)]
  have hd32 : (abi_encode_zkp_burn addr amount is_valid).drop 32 =
      beBytes 32 amount ++ (beBytes 32 (if is_valid then 1 else 0) ++
        (beBytes 32 addr.length ++ (addr ++
          (if addr.length % 32 = 0 then [] else List.replicate (32 - addr.length % 32) 0)))) := by
    rw [abi_encode_zkp_burn]
    simp only [List.append_assoc]
    rw [drop_len_append _ _ _ (beBytes_length 32 96)]
  have hd64 : (abi_encode_zkp_burn addr amount is_valid).drop 64 =
      beBytes 32 (if is_valid then 1 else 0) ++ (beBytes 32 addr.length ++ (addr ++
        (if addr.length % 32 = 0 then [] else List.replicate (32 - addr.length % 32) 0))) := by
    have : (abi_encode_zkp_burn addr amount is_valid).drop 64 =
        ((abi_encode_zkp_burn addr amount is_valid).drop 32).drop 32 := by
      rw [List.drop_drop]
    rw [this, hd32, drop_len_append _ _ _ (beBytes_length 32 amount)]
  have hd96 : (abi_encode_zkp_burn addr amount is_valid).drop 96 =
      beBytes 32 addr.length ++ (addr ++
        (if addr.length % 32 = 0 then [] else List.replicate (32 - addr.length % 32) 0)) := by
    have : (abi_encode_zkp_burn addr amount is_valid).drop 96 =
        ((abi_encode_zkp_burn addr amount is_valid).drop 64).drop 32 := by
      rw [List.drop_drop]
    rw [this, hd64, drop_len_append _ _ _ (beBytes_length 32 _)]
  have hd128 : (abi_encode_zkp_burn addr amount is_valid).drop 128 =
      addr ++ (if addr.length % 32 = 0 then [] else List.replicate (32 - addr.length % 32) 0) := by
    have : (abi_encode_zkp_burn addr amount is_valid).drop 128 =
        ((abi_encode_zkp_burn addr amount is_valid).drop 96).drop 32 := by
      rw [List.drop_drop]
    rw [this, hd96, drop_len_append _ _ _ (beBytes_length 32 _)]
  have hamt : fromBe (((abi_encode_zkp_burn addr amount is_valid).drop 32).take 32) = amount := by
    rw [hd32, take_len_append _ _ _ (beBytes_length 32 amount),
      fromBe_beBytes 32 amount (lt_rpow32 amount hamount)]
  have hvalid : fromBe (((abi_encode_zkp_burn addr amount is_valid).drop 64).take 32) =
      (if is_valid then 1 else 0) := by
    rw [hd64, take_len_append _ _ _ (beBytes_length 32 _)]
    cases is_valid <;> simp <;> rw [fromBe_beBytes 32 _ (by norm_num)]
  have hlenw : fromBe (((abi_encode_zkp_burn addr amount is_valid).drop 96).take 32) =
      addr.length := by
    rw [hd96, take_len_append _ _ _ (beBytes_length 32 _),
      fromBe_beBytes 32 _ (lt_rpow32 _ hlen)]
  have hdata : ((abi_encode_zkp_burn addr amount is_valid).drop 128).take addr.length = addr := by
    rw [hd128]
    exact take_len_append addr _ addr.length rfl
  rw [abi_decode_zkp_burn, if_neg (by omega), if_neg (by rw [hofs]; omega)]
  simp only [hamt, hvalid, hlenw, hdata]
  cases is_valid <;> simp

/-- Witness for C9 on a concrete address, amount and flag. -/
theorem C9_burn_abi_roundtrip_witness :
    (1000 : Nat) < 2 ^ 64 ∧ ([116, 98, 49] : List Nat).length < 2 ^ 64 ∧
    ((abi_encode_zkp_burn [116, 98, 49] 1000 true).length =
        128 + ((([116, 98, 49] : List Nat).length + 31) / 32) * 32 ∧
      abi_decode_zkp_burn (abi_encode_zkp_burn [116, 98, 49] 1000 true) =
        some ([116, 98, 49], 1000, true)) :=
  ⟨by norm_num, by norm_num,
   C9_burn_abi_roundtrip [116, 98, 49] 1000 true (by norm_num) (by norm_num)⟩

lemma take_all_len (l : List Nat) (n : Nat) (h : l.length = n) : l.take n = l :=
  List.take_of_length_le (le_of_eq h)

lemma abi_burn_valid_slice (addr : List Nat) (amount : Nat) (v : Bool) :
    ((abi_encode_zkp_burn addr amount v).drop 64).take 32 =
      beBytes 32 (if v then 1 else 0) := by
  rw [abi_encode_zkp_burn]
  simp only [List.append_assoc]
  rw [show ∀ l : List Nat, l.drop 64 = (l.drop 32).drop 32 from
        fun l => by rw [List.drop_drop],
      drop_len_append _ _ _ (beBytes_length 32 96),
      drop_len_append _ _ _ (beBytes_length 32 amount),
      take_len_append _ _ _ (beBytes_length 32 _)]

lemma abi_mint_valid_slice (tx_id dep : List Nat) (amount : Nat) (v : Bool)
    (h1 : tx_id.length = 32) (h2 : dep.length = 20) :
    ((abi_encode_mint tx_id dep amount v).drop 96).take 32 =
      beBytes 32 (if v then 1 else 0) := by
  have hB : (List.replicate 12 0 ++ dep).length = 32 := by simp [h2]
  rw [abi_encode_mint, List.append_assoc (tx_id ++ (List.replicate 12 0 ++ dep)),
      List.append_assoc tx_id]
  rw [show ∀ l : List Nat, l.drop 96 = ((l.drop 32).drop 32).drop 32 from
        fun l => by rw [List.drop_drop, List.drop_drop],
      drop_len_append _ _ _ h1, drop_len_append _ _ _ hB,
      drop_len_append _ _ _ (beBytes_length 32 amount),
      take_all_len _ _ (beBytes_length 32 _)]

/-- C10: every public-value byte string the mint or burn guest actually
commits carries is_valid = 1: both entrypoints hard-code true at the commit
site and abort (commit nothing) on any verification failure, so the 32-byte
validity slot — at offset 96 for mint, 64 for burn — of any committed bytes
is the big-endian encoding of 1. -/
theorem C10_committed_is_valid :
    (∀ (utf8Memo parseChecksummed : List Nat → Option (List Nat)) (txid : List Nat)
        (total_sats : Nat) (memo : Option (List Nat)) (bundle : BundleB) (bs : List Nat),
        txid.length = 32 →
        (∀ m a, parseChecksummed m = some a → a.length = 20) →
        mint_main utf8Memo parseChecksummed txid total_sats memo bundle = some bs →
        (bs.drop 96).take 32 = beBytes 32 1) ∧
    (∀ (txid : List Nat) (total_sats : Nat) (bundle : BundleB) (bs : List Nat),
        burn_main txid total_sats bundle = some bs →
        (bs.drop 64).take 32 = beBytes 32 1) := by
  constructor
  · intro utf8Memo parseChecksummed txid total_sats memo bundle bs htx hp20 hmain
    simp only [mint_main] at hmain
    cases memo with
    | none => exact Option.noConfusion hmain
    | some m =>
      dsimp only at hmain
      cases hu : utf8Memo m with
      | none => rw [hu] at hmain; exact Option.noConfusion hmain
      | some ms =>
        rw [hu] at hmain
        dsimp only at hmain
        cases hb : bundle.chains.blocks with
        | nil => rw [hb] at hmain; exact Option.noConfusion hmain
        | cons b0 tl =>
          rw [hb] at hmain
          dsimp only at hmain
          by_cases hincl :
              verify_tx_inclusion_str txid bundle.merkle_proof b0.merkle_root = true
          · rw [if_pos hincl] at hmain
            cases hch : verify_chain_with_crate bundle.chains with
            | error e => rw [hch] at hmain; exact Option.noConfusion hmain
            | ok u =>
              rw [hch] at hmain
              dsimp only at hmain
              cases hpc : parseChecksummed ms with
              | none => rw [hpc] at hmain; exact Option.noConfusion hmain
              | some dep =>
                rw [hpc] at hmain
                have hbs : bs = abi_encode_mint txid.reverse dep total_sats true :=
                  (Option.some.inj hmain).symm
                subst hbs
                have h1 : txid.reverse.length = 32 := by simp [htx]
                have := abi_mint_valid_slice txid.reverse dep total_sats true h1
                  (hp20 ms dep hpc)
                simpa using this
          · rw [if_neg hincl] at hmain
            exact Option.noConfusion hmain
  · intro txid total_sats bundle bs hmain
    simp only [burn_main] at hmain
    cases hba : bundle.burner_btc_address with
    | none => rw [hba] at hmain; exact Option.noConfusion hmain
    | some addr =>
      rw [hba] at hmain
      dsimp only at hmain
      cases hb : bundle.chains.blocks with
      | nil => rw [hb] at hmain; exact Option.noConfusion hmain
      | cons b0 tl =>
        rw [hb] at hmain
        dsimp only at hmain
        by_cases hincl :
            verify_tx_inclusion_str txid bundle.merkle_proof b0.merkle_root = true
        · rw [if_pos hincl] at hmain
          cases hch : verify_chain_with_crate bundle.chains with
          | error e => rw [hch] at hmain; exact Option.noConfusion hmain
          | ok u =>
            rw [hch] at hmain
            have hbs : bs = abi_encode_zkp_burn addr total_sats true :=
              (Option.some.inj hmain).symm
            subst hbs
            have := abi_burn_valid_slice addr total_sats true
            simpa using this
        · rw [if_neg hincl] at hmain
          exact Option.noConfusion hmain

set_option maxRecDepth 400000 in
set_option maxHeartbeats 4000000 in
/-- Witness for C10: a concrete mint run and a concrete burn run over the
six-block chain with true double-SHA-256 hashes, both committing, with the
validity slot equal to the encoding of 1. -/
theorem C10_committed_is_valid_witness :
    (wtxid.length = 32 ∧
     (∀ m a, (fun (_ : List Nat) => some waddr20) m = some a → a.length = 20) ∧
     mint_main (fun b => some b) (fun _ => some waddr20) wtxid 1000 (some [48]) wbundleMint =
       some wmintBytes ∧
     (wmintBytes.drop 96).take 32 = beBytes 32 1) ∧
    (burn_main wtxid 500 wbundleBurn = some wburnBytes ∧
     (wburnBytes.drop 64).take 32 = beBytes 32 1) := by
  have hp : ∀ m a, (fun (_ : List Nat) => some waddr20) m = some a → a.length = 20 := by
    intro m a h
    have ha : waddr20 = a := Option.some.inj h
    rw [← ha]; decide
  have hm : mint_main (fun b => some b) (fun _ => some waddr20) wtxid 1000 (some [48])
      wbundleMint = some wmintBytes := by decide
  have hbn : burn_main wtxid 500 wbundleBurn = some wburnBytes := by decide
  exact ⟨⟨by decide, hp, hm,
          C10_committed_is_valid.1 (fun b => some b) (fun _ => some waddr20) wtxid 1000
            (some [48]) wbundleMint wmintBytes (by decide) hp hm⟩,
         hbn, C10_committed_is_valid.2 wtxid 500 wbundleBurn wburnBytes hbn⟩

end Bridge
